import Mathlib

/-!
Shallow embedding of the `stte-rs` terminal text editor core
(`src/buffer.rs`, `src/screen.rs`) and verification of the frozen
claims about its specification.

Texts are modelled as `List Char` (ropey's `Rope` at character
granularity).  Line-break recognition follows ropey's default
`unicode_lines` feature: LF, VT, FF, CR, NEL, LS, PS, with `"\r\n"`
counted as a single break.  `usize` arithmetic is modelled by `Nat`
(`saturating_sub` is `Nat` subtraction).
-/

namespace Stte

def TAB_WIDTH : Nat := 8

inductive Status where
  | Modified
  | Clean
  | Saving
deriving DecidableEq, Repr

inductive LineEnding where
  | LF
  | CRLF
deriving DecidableEq, Repr

/-- `LineEnding::as_str`, at character granularity. -/
def LineEnding.asStr : LineEnding → List Char
  | .LF => ['\n']
  | .CRLF => ['\r', '\n']

/-- `LineEnding::len`. -/
def LineEnding.len : LineEnding → Nat
  | .LF => 1
  | .CRLF => 2

/-- The `Buffer` struct of `src/buffer.rs`. -/
structure Buffer where
  text : List Char
  file_path : Option String
  status : Status
  cursor_pos : Nat
  line_ending : LineEnding
deriving Repr

/-- U+2028 LINE SEPARATOR. -/
def lineSep : Char := ' '

/-- U+2029 PARAGRAPH SEPARATOR. -/
def paraSep : Char := ' '

/-- Ropey's recognised line-break characters (`unicode_lines`). -/
def isLineBreak (c : Char) : Bool :=
  c = '\n' || c = '\u000B' || c = '\u000C' || c = '\r' ||
  c = '\u0085' || c = lineSep || c = paraSep

/-- Split a text into its ropey lines: each line keeps its terminating
break, `"\r\n"` is a single break, and a final (possibly empty) line
follows the last break.  `Rope::len_lines` is the length of this list. -/
def ropeLines : List Char → List (List Char)
  | [] => [[]]
  | '\r' :: '\n' :: rest => ['\r', '\n'] :: ropeLines rest
  | c :: rest =>
    if isLineBreak c then
      [c] :: ropeLines rest
    else
      match ropeLines rest with
      | [] => [[c]]
      | l :: ls => (c :: l) :: ls

/-- `Rope::len_lines`. -/
def numLines (s : List Char) : Nat := (ropeLines s).length

/-- `Rope::line(k)` (total: out-of-range gives `[]`). -/
def lineAt (s : List Char) (k : Nat) : List Char := (ropeLines s).getD k []

/-- `Rope::line_to_char(k)`: character offset of the start of line `k`. -/
def lineToChar (s : List Char) (k : Nat) : Nat :=
  (((ropeLines s).take k).flatten).length

def charToLineAux : List (List Char) → Nat → Nat
  | [], _ => 0
  | [_], _ => 0
  | l :: l' :: ls, i =>
    if i < l.length then 0 else 1 + charToLineAux (l' :: ls) (i - l.length)

/-- `Rope::char_to_line(i)`: the line containing character `i`
(the last line for `i = len_chars`). -/
def charToLine (s : List Char) (i : Nat) : Nat :=
  charToLineAux (ropeLines s) i

/-- Accumulating walk of `Buffer::get_char_column_width`: `acc` is the
`visual_width` accumulator; a tab advances to the next 8-column stop,
any other character contributes `ch.width().unwrap_or(1)` where the
Unicode width oracle `w` models `unicode_width::UnicodeWidthChar`. -/
def gccwAux (w : Char → Option Nat) : List Char → Nat → Nat
  | [], acc => acc
  | c :: rest, acc =>
    gccwAux w rest
      (acc + if c = '\t' then TAB_WIDTH - acc % TAB_WIDTH else (w c).getD 1)

/-- `Buffer::get_char_column_width(x, y)`. -/
def get_char_column_width (w : Char → Option Nat) (s : List Char)
    (x y : Nat) : Nat :=
  gccwAux w ((lineAt s y).take x) 0

/-- Loop of `Buffer::get_char_index_from_visual_x`: returns the
enumeration index of the first character whose cumulative visual width
passes `target`, or the line's character count if none does. -/
def gcifvAux (w : Char → Option Nat) (target : Nat) :
    List Char → Nat → Nat → Nat
  | [], _, idx => idx
  | c :: rest, vx, idx =>
    let cw := if c = '\t' then TAB_WIDTH - vx % TAB_WIDTH else (w c).getD 1
    if vx + cw > target then idx else gcifvAux w target rest (vx + cw) (idx + 1)

/-- `Buffer::get_char_index_from_visual_x(line, target_visual_x)`. -/
def get_char_index_from_visual_x (w : Char → Option Nat) (s : List Char)
    (line target : Nat) : Nat :=
  gcifvAux w target (lineAt s line) 0 0

/-- `Buffer::get_cursor_xy`. -/
def get_cursor_xy (b : Buffer) : Nat × Nat :=
  let line_idx := charToLine b.text b.cursor_pos
  (b.cursor_pos - lineToChar b.text line_idx, line_idx)

/-- `Buffer::cursor_row`. -/
def cursor_row (b : Buffer) : Nat := charToLine b.text b.cursor_pos

/-- `Buffer::move_cursor_left`. -/
def move_cursor_left (b : Buffer) : Buffer :=
  if b.cursor_pos > 0 then { b with cursor_pos := b.cursor_pos - 1 } else b

/-- `Buffer::move_cursor_right`. -/
def move_cursor_right (b : Buffer) : Buffer :=
  if b.cursor_pos < b.text.length then
    { b with cursor_pos := b.cursor_pos + 1 }
  else b

/-- `Buffer::move_cursor_up`. -/
def move_cursor_up (w : Char → Option Nat) (b : Buffer) : Buffer :=
  let p := get_cursor_xy b
  if p.2 > 0 then
    let target_y := p.2 - 1
    let visual_x := get_char_column_width w b.text p.1 p.2
    let new_x := get_char_index_from_visual_x w b.text target_y visual_x
    { b with cursor_pos := lineToChar b.text target_y + new_x }
  else b

/-- `Buffer::move_cursor_down`. -/
def move_cursor_down (w : Char → Option Nat) (b : Buffer) : Buffer :=
  let p := get_cursor_xy b
  if p.2 < numLines b.text - 1 then
    let target_y := p.2 + 1
    let visual_x := get_char_column_width w b.text p.1 p.2
    let new_x := get_char_index_from_visual_x w b.text target_y visual_x
    { b with cursor_pos := lineToChar b.text target_y + new_x }
  else b

/-- The four navigation commands. -/
inductive NavOp where
  | left
  | right
  | up
  | down
deriving DecidableEq, Repr

def applyNav (w : Char → Option Nat) : NavOp → Buffer → Buffer
  | .left => move_cursor_left
  | .right => move_cursor_right
  | .up => move_cursor_up w
  | .down => move_cursor_down w

def applyNavs (w : Char → Option Nat) (ops : List NavOp) (b : Buffer) :
    Buffer :=
  ops.foldl (fun b op => applyNav w op b) b

/-- `rope.slice(a..b)` at character granularity. -/
def sliceOf (s : List Char) (a b : Nat) : List Char := (s.drop a).take (b - a)

/-- `Buffer::insert_char`. -/
def insert_char (b : Buffer) (c : Char) : Buffer :=
  { b with
    text := b.text.take b.cursor_pos ++ [c] ++ b.text.drop b.cursor_pos
    cursor_pos := b.cursor_pos + 1
    status := Status.Modified }

/-- `Buffer::delete_char` (Backspace).  The terminal clear it issues is
I/O-only and does not affect the buffer state. -/
def delete_char (b : Buffer) : Buffer :=
  if b.cursor_pos > 0 then
    let start := b.cursor_pos - b.line_ending.len
    if sliceOf b.text start b.cursor_pos = b.line_ending.asStr then
      { b with
        text := b.text.take start ++ b.text.drop b.cursor_pos
        cursor_pos := start
        status := Status.Modified }
    else
      { b with
        text := b.text.take (b.cursor_pos - 1) ++ b.text.drop b.cursor_pos
        cursor_pos := b.cursor_pos - 1
        status := Status.Modified }
  else b

/-- `Buffer::insert_newline`.  Note: the source does not modify
`status` here. -/
def insert_newline (b : Buffer) : Buffer :=
  { b with
    text := b.text.take b.cursor_pos ++ b.line_ending.asStr ++
            b.text.drop b.cursor_pos
    cursor_pos := b.cursor_pos + b.line_ending.len }

/-- Outcome oracle for the filesystem interaction of `Buffer::save`:
whether `File::create` succeeds (and with which error kind when not)
and whether `Rope::write_to` succeeds. -/
inductive SaveIO where
  | createFailPermissionDenied
  | createFailOther
  | writeFail
  | ok
deriving DecidableEq, Repr

/-- `Buffer::save`, with the I/O outcome passed explicitly.  Returns
the buffer after the call and the `Result` value (error messages as in
`BufferError`). -/
def save (b : Buffer) (io : SaveIO) : Buffer × Except String String :=
  let b := { b with status := Status.Saving }
  match b.file_path with
  | some path =>
    match io with
    | .ok =>
      ({ b with status := Status.Clean },
       Except.ok ("Wrote " ++ toString (b.text.map Char.utf8Size).sum ++
                  " bytes to " ++ path))
    | .writeFail => (b, Except.error "I/O error occurred")
    | .createFailPermissionDenied => (b, Except.error "Can't write to file")
    | .createFailOther => (b, Except.error "I/O error occurred")
  | none => (b, Except.error "No file associated with buffer")

/-- Width oracle that agrees with `unicode_width` on ASCII: control
characters have no width (`None`, so the code's `unwrap_or(1)` yields
1) and printable ASCII has width 1.  Used only on ASCII inputs. -/
def asciiWidth (c : Char) : Option Nat :=
  if c.toNat < 32 || c.toNat == 127 then none else some 1

/-- The viewport state of `Screen` (`src/screen.rs`): terminal
dimensions and the vertical scroll offset. -/
structure Screen where
  width : Nat
  height : Nat
  scroll_offset : Nat
deriving Repr

/-- `Screen::update_scroll_offset`. -/
def update_scroll_offset (s : Screen) (cursorRow : Nat) : Screen :=
  let viewport_height := s.height - 1
  if cursorRow < s.scroll_offset then
    { s with scroll_offset := cursorRow }
  else if cursorRow ≥ s.scroll_offset + viewport_height then
    { s with scroll_offset := cursorRow - viewport_height + 1 }
  else s

/-- The effect of `Screen::display_buffer` on the viewport state: it
first runs `update_scroll_offset`; the subsequent drawing calls
(`draw_lines`, `draw_status_bar`, `position_cursor`, `flush`) only read
`scroll_offset` and never write it. -/
def display_buffer (s : Screen) (b : Buffer) : Screen :=
  update_scroll_offset s (cursor_row b)

/-- Loop of `Screen::draw_line`, returning the emitted characters:
before examining each character it stops if `visual_col` has reached
the viewport width; a tab emits spaces up to the next 8-column stop, a
`'\n'` stops the walk, and any other character is emitted itself with
width 1. -/
def drawLineAux (width : Nat) : List Char → Nat → List Char
  | [], _ => []
  | c :: rest, visual_col =>
    if visual_col ≥ width then []
    else if c = '\t' then
      let spaces := TAB_WIDTH - visual_col % TAB_WIDTH
      List.replicate spaces ' ' ++ drawLineAux width rest (visual_col + spaces)
    else if c = '\n' then []
    else c :: drawLineAux width rest (visual_col + 1)

/-- `Screen::draw_line`: the characters printed for one line. -/
def draw_line (width : Nat) (line : List Char) : List Char :=
  drawLineAux width line 0

/-- Spec-side tab/width expansion walk for line rendering: emits tab
stops and ordinary characters, stopping once `visual_col` has reached
the viewport width.  Used by `renderLineSpec`. -/
def expandVisible (width : Nat) : List Char → Nat → List Char
  | [], _ => []
  | c :: rest, visual_col =>
    if visual_col ≥ width then []
    else if c = '\t' then
      List.replicate (TAB_WIDTH - visual_col % TAB_WIDTH) ' ' ++
        expandVisible width rest
          (visual_col + (TAB_WIDTH - visual_col % TAB_WIDTH))
    else c :: expandVisible width rest (visual_col + 1)

/-- The amended line-rendering specification: truncate the line at its
first `'\n'` (a `'\r'` does NOT stop the walk; it is emitted as an
ordinary one-column character), then expand tabs to 8-column stops,
stopping when `visual_col` reaches the viewport width. -/
def renderLineSpec (width : Nat) (line : List Char) : List Char :=
  expandVisible width (line.takeWhile (· ≠ '\n')) 0

/-! ### Structural lemmas about the line model -/

theorem ropeLines_ne_nil (s : List Char) : ropeLines s ≠ [] := by
  induction s using ropeLines.induct with
  | case1 => simp [ropeLines.eq_1]
  | case2 rest ih => simp [ropeLines.eq_2]
  | case3 c rest hx hb ih =>
    rw [ropeLines.eq_3 c rest hx]
    simp [hb]
  | case4 c rest hx hb hnil ih => exact absurd hnil ih
  | case5 c rest hx hb l ls heq ih =>
    rw [ropeLines.eq_3 c rest hx]
    simp [hb, heq]

theorem ropeLines_flatten (s : List Char) : (ropeLines s).flatten = s := by
  induction s using ropeLines.induct with
  | case1 => rfl
  | case2 rest ih => simp [ropeLines.eq_2, ih]
  | case3 c rest hx hb ih =>
    rw [ropeLines.eq_3 c rest hx]
    simp [hb, ih]
  | case4 c rest hx hb hnil ih => exact absurd hnil (ropeLines_ne_nil rest)
  | case5 c rest hx hb l ls heq ih =>
    rw [ropeLines.eq_3 c rest hx]
    rw [heq] at ih ⊢
    simp [hb] at ih ⊢
    exact ih

theorem charToLineAux_lt (l : List Char) (rest : List (List Char)) :
    ∀ i, charToLineAux (l :: rest) i < (l :: rest).length := by
  induction rest generalizing l with
  | nil => intro i; simp [charToLineAux]
  | cons l' ls ih =>
    intro i
    simp only [charToLineAux]
    split
    · simp
    · have := ih l' (i - l.length)
      simp only [List.length_cons] at *
      omega

theorem charToLine_lt_numLines (s : List Char) (i : Nat) :
    charToLine s i < numLines s := by
  unfold charToLine numLines
  cases h : ropeLines s with
  | nil => exact absurd h (ropeLines_ne_nil s)
  | cons l rest => exact charToLineAux_lt l rest i

theorem take_flatten_getD_le (L : List (List Char)) :
    ∀ k, k < L.length →
      ((L.take k).flatten).length + (L.getD k []).length ≤ L.flatten.length := by
  induction L with
  | nil => intro k hk; simp at hk
  | cons l ls ih =>
    intro k hk
    cases k with
    | zero => simp
    | succ k =>
      have := ih k (by simpa using hk)
      simp only [List.take_succ_cons, List.getD_cons_succ, List.flatten_cons,
        List.length_append]
      omega

theorem lineToChar_add_lineAt_le (s : List Char) (k : Nat)
    (hk : k < numLines s) :
    lineToChar s k + (lineAt s k).length ≤ s.length := by
  have h := take_flatten_getD_le (ropeLines s) k hk
  rw [ropeLines_flatten] at h
  exact h

theorem gcifvAux_le (w : Char → Option Nat) (t : Nat) :
    ∀ (l : List Char) (vx idx : Nat), gcifvAux w t l vx idx ≤ idx + l.length := by
  intro l
  induction l with
  | nil => intro vx idx; simp [gcifvAux]
  | cons c rest ih =>
    intro vx idx
    simp only [gcifvAux, List.length_cons]
    split
    · split
      · omega
      · have := ih (vx + (TAB_WIDTH - vx % TAB_WIDTH)) (idx + 1)
        omega
    · split
      · omega
      · have := ih (vx + (w c).getD 1) (idx + 1)
        omega

theorem get_char_index_le (w : Char → Option Nat) (s : List Char)
    (line target : Nat) :
    get_char_index_from_visual_x w s line target ≤ (lineAt s line).length := by
  have := gcifvAux_le w target (lineAt s line) 0 0
  simpa [get_char_index_from_visual_x] using this

/-! ### Navigation lemmas -/

theorem applyNav_frame (w : Char → Option Nat) (op : NavOp) (b : Buffer) :
    (applyNav w op b).text = b.text ∧
    (applyNav w op b).file_path = b.file_path ∧
    (applyNav w op b).status = b.status ∧
    (applyNav w op b).line_ending = b.line_ending := by
  cases op <;>
    simp only [applyNav, move_cursor_left, move_cursor_right, move_cursor_up,
      move_cursor_down] <;>
    split <;> simp

theorem applyNav_cursor_le (w : Char → Option Nat) (op : NavOp) (b : Buffer)
    (h : b.cursor_pos ≤ b.text.length) :
    (applyNav w op b).cursor_pos ≤ b.text.length := by
  cases op with
  | left =>
    simp only [applyNav, move_cursor_left]
    split
    · show b.cursor_pos - 1 ≤ b.text.length
      omega
    · exact h
  | right =>
    simp only [applyNav, move_cursor_right]
    split
    · rename_i hlt
      simpa using hlt
    · simpa using h
  | up =>
    simp only [applyNav, move_cursor_up, get_cursor_xy]
    split
    · rename_i hpos
      have hlt : charToLine b.text b.cursor_pos < numLines b.text :=
        charToLine_lt_numLines _ _
      have h1 := get_char_index_le w b.text
        (charToLine b.text b.cursor_pos - 1)
        (get_char_column_width w b.text
          (b.cursor_pos - lineToChar b.text (charToLine b.text b.cursor_pos))
          (charToLine b.text b.cursor_pos))
      have h2 := lineToChar_add_lineAt_le b.text
        (charToLine b.text b.cursor_pos - 1) (by omega)
      simp only
      omega
    · simpa using h
  | down =>
    simp only [applyNav, move_cursor_down, get_cursor_xy]
    split
    · rename_i hlt
      have h1 := get_char_index_le w b.text
        (charToLine b.text b.cursor_pos + 1)
        (get_char_column_width w b.text
          (b.cursor_pos - lineToChar b.text (charToLine b.text b.cursor_pos))
          (charToLine b.text b.cursor_pos))
      have h2 := lineToChar_add_lineAt_le b.text
        (charToLine b.text b.cursor_pos + 1) (by omega)
      simp only
      omega
    · simpa using h

theorem applyNavs_cursor_le (w : Char → Option Nat) (ops : List NavOp) :
    ∀ b : Buffer, b.cursor_pos ≤ b.text.length →
      (applyNavs w ops b).cursor_pos ≤ (applyNavs w ops b).text.length := by
  induction ops with
  | nil => intro b h; simpa [applyNavs] using h
  | cons op ops ih =>
    intro b h
    have hstep : applyNavs w (op :: ops) b = applyNavs w ops (applyNav w op b) := by
      simp [applyNavs]
    rw [hstep]
    refine ih (applyNav w op b) ?_
    have h1 := applyNav_cursor_le w op b h
    rw [(applyNav_frame w op b).1]
    exact h1

end Stte

namespace Stte

/-! ### Claim theorems -/

/-- C6: for every document satisfying `0 ≤ cursor ≤ char_count`, every
sequence of the four navigation operations (left, right, up, down) —
under any Unicode width oracle — preserves `0 ≤ cursor ≤ char_count`.
(`cursor` is a `Nat`, so `0 ≤ cursor` is the statement's first
conjunct made explicit.) -/
theorem C6_nav_sequence_preserves_cursor_bounds (w : Char → Option Nat)
    (ops : List NavOp) (b : Buffer) (h : b.cursor_pos ≤ b.text.length) :
    0 ≤ (applyNavs w ops b).cursor_pos ∧
    (applyNavs w ops b).cursor_pos ≤ (applyNavs w ops b).text.length :=
  ⟨Nat.zero_le _, applyNavs_cursor_le w ops b h⟩

/-- Witness for C6 at a concrete document and navigation sequence. -/
theorem C6_witness :
    (Buffer.mk "ab\ncd".toList none Status.Clean 1 LineEnding.LF).cursor_pos ≤
      (Buffer.mk "ab\ncd".toList none Status.Clean 1 LineEnding.LF).text.length ∧
    (applyNavs asciiWidth [NavOp.down, NavOp.right, NavOp.up, NavOp.left]
      (Buffer.mk "ab\ncd".toList none Status.Clean 1 LineEnding.LF)).cursor_pos ≤
    (applyNavs asciiWidth [NavOp.down, NavOp.right, NavOp.up, NavOp.left]
      (Buffer.mk "ab\ncd".toList none Status.Clean 1 LineEnding.LF)).text.length :=
  ⟨by decide,
   (C6_nav_sequence_preserves_cursor_bounds asciiWidth
     [NavOp.down, NavOp.right, NavOp.up, NavOp.left]
     (Buffer.mk "ab\ncd".toList none Status.Clean 1 LineEnding.LF)
     (by decide)).2⟩

/-- C8: for every document state (with the documented cursor invariant
`cursor ≤ char_count`) and every printable character `c` that is not a
tab or a newline, `insert_char c` followed by `delete_backward`
restores the text and the cursor to their values before the insertion.
Only `c ≠ '\n'` is actually needed for the proof. -/
theorem C8_insert_then_delete_roundtrip (b : Buffer) (c : Char)
    (hn : b.cursor_pos ≤ b.text.length) (_ht : c ≠ '\t') (hc : c ≠ '\n') :
    (delete_char (insert_char b c)).text = b.text ∧
    (delete_char (insert_char b c)).cursor_pos = b.cursor_pos := by
  obtain ⟨t, fp, st, n, le⟩ := b
  simp only at hn ⊢
  have hlen : (t.take n).length = n := List.length_take_of_le hn
  have hassoc : t.take n ++ [c] ++ t.drop n = t.take n ++ ([c] ++ t.drop n) :=
    List.append_assoc _ _ _
  have hdropn : (t.take n ++ [c] ++ t.drop n).drop n = [c] ++ t.drop n := by
    rw [hassoc]; exact List.drop_left' hlen
  have htaken : (t.take n ++ [c] ++ t.drop n).take n = t.take n := by
    rw [hassoc]; exact List.take_left' hlen
  have hdropn1 : (t.take n ++ [c] ++ t.drop n).drop (n + 1) = t.drop n :=
    List.drop_left' (by simp [hlen])
  have helse : (t.take n ++ [c] ++ t.drop n).take n ++
      (t.take n ++ [c] ++ t.drop n).drop (n + 1) = t := by
    rw [htaken, hdropn1, List.take_append_drop]
  simp only [insert_char, delete_char]
  cases le with
  | LF =>
    simp only [LineEnding.len, LineEnding.asStr]
    rw [if_pos (Nat.succ_pos n)]
    have hsl : sliceOf (t.take n ++ [c] ++ t.drop n) (n + 1 - 1) (n + 1) = [c] := by
      simp only [Nat.add_sub_cancel, sliceOf, hdropn]
      simp
    rw [if_neg (by rw [hsl]; simp [hc])]
    simp only [Nat.add_sub_cancel]
    exact ⟨helse, trivial⟩
  | CRLF =>
    simp only [LineEnding.len, LineEnding.asStr]
    rw [if_pos (Nat.succ_pos n)]
    have hne : sliceOf (t.take n ++ [c] ++ t.drop n) (n + 1 - 2) (n + 1) ≠
        ['\r', '\n'] := by
      intro heq
      have h1 : (sliceOf (t.take n ++ [c] ++ t.drop n)
          (n + 1 - 2) (n + 1))[1]? = some '\n' := by
        rw [heq]; rfl
      rcases Nat.eq_zero_or_pos n with hz | hp
      · subst hz
        simp only [sliceOf] at heq
        have := congrArg List.length heq
        simp at this
      · have hst : n + 1 - 2 = n - 1 := by omega
        have h2 : (sliceOf (t.take n ++ [c] ++ t.drop n)
            (n + 1 - 2) (n + 1))[1]? = some c := by
          simp only [sliceOf, hst]
          have hsub : n + 1 - (n - 1) = 2 := by omega
          rw [hsub, List.getElem?_take, if_pos (by omega : (1:Nat) < 2),
            List.getElem?_drop, (by omega : n - 1 + 1 = n), hassoc,
            List.getElem?_append_right (le_of_eq hlen), hlen]
          simp
        rw [h1] at h2
        exact hc (Option.some.inj h2).symm
    rw [if_neg hne]
    simp only [Nat.add_sub_cancel]
    exact ⟨helse, trivial⟩

/-- Witness for C8: inserting `'X'` at cursor 1 of `"ab"` (CRLF
document) and deleting backward restores text and cursor. -/
theorem C8_witness :
    (Buffer.mk "ab".toList none Status.Clean 1 LineEnding.CRLF).cursor_pos ≤
      (Buffer.mk "ab".toList none Status.Clean 1 LineEnding.CRLF).text.length ∧
    ('X' ≠ '\t') ∧ ('X' ≠ '\n') ∧
    ((delete_char (insert_char
        (Buffer.mk "ab".toList none Status.Clean 1 LineEnding.CRLF) 'X')).text =
      (Buffer.mk "ab".toList none Status.Clean 1 LineEnding.CRLF).text ∧
     (delete_char (insert_char
        (Buffer.mk "ab".toList none Status.Clean 1 LineEnding.CRLF) 'X')).cursor_pos =
      (Buffer.mk "ab".toList none Status.Clean 1 LineEnding.CRLF).cursor_pos) :=
  ⟨by decide, by decide, by decide,
   C8_insert_then_delete_roundtrip
     (Buffer.mk "ab".toList none Status.Clean 1 LineEnding.CRLF) 'X'
     (by decide) (by decide) (by decide)⟩

/-- C10: every navigation operation (left, right, up, down) leaves the
document's `text`, `file_path`, `status` and `line_ending` unchanged;
only the cursor may change. -/
theorem C10_nav_frame (w : Char → Option Nat) (op : NavOp) (b : Buffer) :
    (applyNav w op b).text = b.text ∧
    (applyNav w op b).file_path = b.file_path ∧
    (applyNav w op b).status = b.status ∧
    (applyNav w op b).line_ending = b.line_ending :=
  applyNav_frame w op b

/-- C1 counterexample: with `line_ending = LF` and the two characters
before the cursor equal to `"\r\n"`, `delete_backward` removes only
one character (the `'\n'`) and decreases the cursor by 1 — the claimed
line-ending-independent CRLF atomicity fails. -/
theorem C1_counterexample :
    sliceOf (Buffer.mk "\r\n".toList none Status.Clean 2 LineEnding.LF).text 0 2 =
      ['\r', '\n'] ∧
    (Buffer.mk "\r\n".toList none Status.Clean 2 LineEnding.LF).line_ending =
      LineEnding.LF ∧
    (delete_char (Buffer.mk "\r\n".toList none Status.Clean 2 LineEnding.LF)).text =
      ['\r'] ∧
    (delete_char (Buffer.mk "\r\n".toList none Status.Clean 2
      LineEnding.LF)).cursor_pos = 1 := by decide

/-- C1 amended: `delete_backward` removes the `"\r\n"` pair atomically
(two characters, cursor −2) only when the document's declared
`line_ending` is CRLF and the two characters at `[cursor−2, cursor)`
are `"\r\n"`; in every other case with `cursor > 0` — in particular
always when `line_ending = LF` — it removes exactly one character and
decreases the cursor by 1. -/
theorem C1_amended_delete_backward (b : Buffer)
    (hn : b.cursor_pos ≤ b.text.length) (h0 : 0 < b.cursor_pos) :
    ((b.line_ending = LineEnding.CRLF ∧ 2 ≤ b.cursor_pos ∧
        sliceOf b.text (b.cursor_pos - 2) b.cursor_pos = ['\r', '\n']) →
      (delete_char b).text.length + 2 = b.text.length ∧
      (delete_char b).cursor_pos + 2 = b.cursor_pos) ∧
    ((b.line_ending = LineEnding.LF ∨ ¬ 2 ≤ b.cursor_pos ∨
        sliceOf b.text (b.cursor_pos - 2) b.cursor_pos ≠ ['\r', '\n']) →
      (delete_char b).text.length + 1 = b.text.length ∧
      (delete_char b).cursor_pos + 1 = b.cursor_pos) := by
  obtain ⟨t, fp, st, n, le⟩ := b
  simp only at hn h0 ⊢
  constructor
  · rintro ⟨hle, h2, hsl⟩
    subst hle
    simp only [delete_char, LineEnding.len, LineEnding.asStr]
    rw [if_pos h0, if_pos (by simpa using hsl)]
    simp only [List.length_append, List.length_take, List.length_drop]
    constructor <;> omega
  · intro hother
    simp only [delete_char]
    rw [if_pos h0]
    cases le with
    | LF =>
      simp only [LineEnding.len, LineEnding.asStr]
      split <;>
      · simp only [List.length_append, List.length_take, List.length_drop]
        constructor <;> omega
    | CRLF =>
      simp only [LineEnding.len, LineEnding.asStr]
      have hcond : ¬ (sliceOf t (n - 2) n = ['\r', '\n']) := by
        rcases hother with h | h | h
        · cases h
        · intro heq
          have := congrArg List.length heq
          simp only [sliceOf, List.length_take, List.length_drop,
            List.length_cons, List.length_nil] at this
          omega
        · exact h
      rw [if_neg hcond]
      simp only [List.length_append, List.length_take, List.length_drop]
      constructor <;> omega

/-- Witness for C1 amended: on a CRLF document `"a\r\n"` with cursor 3,
`delete_backward` removes two characters and moves the cursor back by 2. -/
theorem C1_witness :
    (Buffer.mk "a\r\n".toList none Status.Clean 3 LineEnding.CRLF).cursor_pos ≤
      (Buffer.mk "a\r\n".toList none Status.Clean 3 LineEnding.CRLF).text.length ∧
    0 < (Buffer.mk "a\r\n".toList none Status.Clean 3 LineEnding.CRLF).cursor_pos ∧
    ((delete_char (Buffer.mk "a\r\n".toList none Status.Clean 3
        LineEnding.CRLF)).text.length + 2 =
      (Buffer.mk "a\r\n".toList none Status.Clean 3 LineEnding.CRLF).text.length ∧
     (delete_char (Buffer.mk "a\r\n".toList none Status.Clean 3
        LineEnding.CRLF)).cursor_pos + 2 =
      (Buffer.mk "a\r\n".toList none Status.Clean 3 LineEnding.CRLF).cursor_pos) :=
  ⟨by decide, by decide,
   (C1_amended_delete_backward
     (Buffer.mk "a\r\n".toList none Status.Clean 3 LineEnding.CRLF)
     (by decide) (by decide)).1 (by decide)⟩

/-- C2 (code bug evaluation): in `"abcdef\n123\nxyzwvu"` with the
cursor at offset 4, one `move_cursor_down` sets the cursor to 11 —
the start of line 2, past line 1's terminator — instead of the
end-of-line position 10 claimed by the spec. -/
theorem C2_down_lands_past_line_end :
    (move_cursor_down asciiWidth
      (Buffer.mk "abcdef\n123\nxyzwvu".toList none Status.Clean 4
        LineEnding.LF)).cursor_pos = 11 ∧
    charToLine "abcdef\n123\nxyzwvu".toList 11 = 2 ∧
    lineToChar "abcdef\n123\nxyzwvu".toList 2 = 11 ∧
    charToLine "abcdef\n123\nxyzwvu".toList 10 = 1 := by decide

/-- C3 counterexample: saving a buffer with `file_path = None` returns
an error and leaves `status = Saving` — not `Modified` as claimed. -/
theorem C3_counterexample :
    (save (Buffer.mk ['a'] none Status.Clean 0 LineEnding.LF) SaveIO.ok).2.isOk =
      false ∧
    (save (Buffer.mk ['a'] none Status.Clean 0 LineEnding.LF) SaveIO.ok).1.status =
      Status.Saving ∧
    Status.Saving ≠ Status.Modified := by decide

/-- C3 amended: after `save` the status is `Clean` exactly when the
call succeeded; whenever `save` returns an error (no-file-path case or
any I/O failure) the status is `Saving` (the `Saving` value set at
entry is never reverted to `Modified`). -/
theorem C3_amended_save_status (b : Buffer) (io : SaveIO) :
    ((save b io).2.isOk = true → (save b io).1.status = Status.Clean) ∧
    ((save b io).2.isOk = false → (save b io).1.status = Status.Saving) ∧
    ((save b io).1.status = Status.Clean ↔ (save b io).2.isOk = true) := by
  unfold save
  cases hfp : b.file_path <;> cases io <;> simp [Except.isOk, Except.toBool]

/-- Witness for C3 amended: a successful save of a buffer with a path
ends with `status = Clean`. -/
theorem C3_witness :
    (save (Buffer.mk ['a'] (some "f.txt") Status.Modified 0 LineEnding.LF)
      SaveIO.ok).2.isOk = true ∧
    (save (Buffer.mk ['a'] (some "f.txt") Status.Modified 0 LineEnding.LF)
      SaveIO.ok).1.status = Status.Clean :=
  ⟨by decide,
   (C3_amended_save_status
     (Buffer.mk ['a'] (some "f.txt") Status.Modified 0 LineEnding.LF)
     SaveIO.ok).1 (by decide)⟩

/-- C4 (code bug evaluation): `insert_newline` performs the claimed
insertion, cursor advance and line-count increase, but leaves `status`
unchanged (`Clean` stays `Clean`) instead of setting `Modified`. -/
theorem C4_insert_newline_keeps_status :
    (insert_newline (Buffer.mk "ab".toList none Status.Clean 1
      LineEnding.LF)).status = Status.Clean ∧
    (insert_newline (Buffer.mk "ab".toList none Status.Clean 1
      LineEnding.LF)).text = "a\nb".toList ∧
    (insert_newline (Buffer.mk "ab".toList none Status.Clean 1
      LineEnding.LF)).cursor_pos = 2 ∧
    numLines "a\nb".toList = numLines "ab".toList + 1 := by decide

/-- C5 counterexample: in the document `"\r\n"` with the cursor at 2
(not between the pair), a single `move_cursor_left` leaves the cursor
at offset 1 — exactly between the `'\r'` and the `'\n'`. -/
theorem C5_counterexample :
    (Buffer.mk "\r\n".toList none Status.Clean 2 LineEnding.CRLF).text[0]? =
      some '\r' ∧
    (Buffer.mk "\r\n".toList none Status.Clean 2 LineEnding.CRLF).text[1]? =
      some '\n' ∧
    (Buffer.mk "\r\n".toList none Status.Clean 2 LineEnding.CRLF).cursor_pos = 2 ∧
    (move_cursor_left (Buffer.mk "\r\n".toList none Status.Clean 2
      LineEnding.CRLF)).cursor_pos = 1 := by decide

/-- C5 amended: `move_cursor_left` and `move_cursor_right` move the
cursor by exactly one character offset whenever not at the document
edge, with no special handling of `"\r\n"` pairs — so a single
navigation operation can leave the cursor between the `'\r'` and the
`'\n'` of a pair. -/
theorem C5_amended_left_right_by_one (b : Buffer) :
    (0 < b.cursor_pos →
      (move_cursor_left b).cursor_pos = b.cursor_pos - 1) ∧
    (b.cursor_pos < b.text.length →
      (move_cursor_right b).cursor_pos = b.cursor_pos + 1) := by
  constructor <;> intro h <;> simp [move_cursor_left, move_cursor_right, h]

/-- Witness for C5 amended: on `"\r\n"` with cursor 2, one left
movement lands at offset 1. -/
theorem C5_witness :
    0 < (Buffer.mk "\r\n".toList none Status.Clean 2 LineEnding.CRLF).cursor_pos ∧
    (move_cursor_left (Buffer.mk "\r\n".toList none Status.Clean 2
      LineEnding.CRLF)).cursor_pos =
      (Buffer.mk "\r\n".toList none Status.Clean 2 LineEnding.CRLF).cursor_pos - 1 :=
  ⟨by decide,
   (C5_amended_left_right_by_one
     (Buffer.mk "\r\n".toList none Status.Clean 2 LineEnding.CRLF)).1 (by decide)⟩

/-- C7 counterexample: with terminal height 1 (viewport body of 0
rows), `display` sets `scroll_offset` to `cursor_row + 1`, so the
claimed invariant `scroll_offset ≤ cursor_row < scroll_offset +
(height − 1)` fails. -/
theorem C7_counterexample :
    (display_buffer (Screen.mk 80 1 0)
      (Buffer.mk [] none Status.Clean 0 LineEnding.LF)).scroll_offset = 1 ∧
    ¬ ((display_buffer (Screen.mk 80 1 0)
          (Buffer.mk [] none Status.Clean 0 LineEnding.LF)).scroll_offset ≤
        cursor_row (Buffer.mk [] none Status.Clean 0 LineEnding.LF) ∧
       cursor_row (Buffer.mk [] none Status.Clean 0 LineEnding.LF) <
        (display_buffer (Screen.mk 80 1 0)
          (Buffer.mk [] none Status.Clean 0 LineEnding.LF)).scroll_offset +
        ((Screen.mk 80 1 0).height - 1)) := by decide

/-- C7 amended: for every document and every viewport state with
`height ≥ 2` (so the viewport body has at least one row), after
`display` completes `scroll_offset ≤ cursor_row < scroll_offset +
(height − 1)` holds. -/
theorem C7_amended_display_scroll_invariant (s : Screen) (b : Buffer)
    (hh : 2 ≤ s.height) :
    (display_buffer s b).scroll_offset ≤ cursor_row b ∧
    cursor_row b < (display_buffer s b).scroll_offset + (s.height - 1) := by
  unfold display_buffer update_scroll_offset
  by_cases h1 : cursor_row b < s.scroll_offset
  · simp [h1]
    omega
  · by_cases h2 : cursor_row b ≥ s.scroll_offset + (s.height - 1)
    · simp [h1, h2]
      omega
    · simp [h1, h2]
      omega

/-- Witness for C7 amended at height 5, prior scroll 3, cursor row 0. -/
theorem C7_witness :
    2 ≤ (Screen.mk 80 5 3).height ∧
    ((display_buffer (Screen.mk 80 5 3)
        (Buffer.mk "a\nb".toList none Status.Clean 0 LineEnding.LF)).scroll_offset ≤
      cursor_row (Buffer.mk "a\nb".toList none Status.Clean 0 LineEnding.LF) ∧
     cursor_row (Buffer.mk "a\nb".toList none Status.Clean 0 LineEnding.LF) <
      (display_buffer (Screen.mk 80 5 3)
        (Buffer.mk "a\nb".toList none Status.Clean 0 LineEnding.LF)).scroll_offset +
      ((Screen.mk 80 5 3).height - 1)) :=
  ⟨by decide,
   C7_amended_display_scroll_invariant (Screen.mk 80 5 3)
     (Buffer.mk "a\nb".toList none Status.Clean 0 LineEnding.LF) (by decide)⟩

/-- C9 counterexample: the rendering walk does NOT stop at `'\r'`: for
the line `"\rA"` it emits both characters, whereas the claim says it
stops (emits nothing) on encountering `'\r'`. -/
theorem C9_counterexample :
    draw_line 10 "\rA".toList = "\rA".toList ∧
    "\rA".toList ≠ ([] : List Char) := by decide

/-- C9 amended: the line-rendering walk emits
`TAB_WIDTH − (visual_col mod TAB_WIDTH)` spaces for each `'\t'`, stops
emitting as soon as it encounters `'\n'` (a `'\r'` does not stop it
and is emitted as an ordinary one-column character), otherwise emits
the character itself, stopping when `visual_col` reaches the viewport
width: `draw_line` equals the specification walk `renderLineSpec`. -/
theorem C9_amended_draw_line_renders_spec (width : Nat) (line : List Char) :
    draw_line width line = renderLineSpec width line := by
  unfold draw_line renderLineSpec
  suffices h : ∀ (l : List Char) (vc : Nat),
      drawLineAux width l vc = expandVisible width (l.takeWhile (· ≠ '\n')) vc by
    exact h line 0
  intro l
  induction l with
  | nil => intro vc; rfl
  | cons c rest ih =>
    intro vc
    by_cases hn : c = '\n'
    · subst hn
      rw [show List.takeWhile (· ≠ '\n') ('\n' :: rest) = [] by
        simp [List.takeWhile_cons]]
      simp [drawLineAux, expandVisible]
    · rw [show List.takeWhile (· ≠ '\n') (c :: rest) =
          c :: List.takeWhile (· ≠ '\n') rest by simp [List.takeWhile_cons, hn]]
      by_cases hw : vc ≥ width
      · simp [drawLineAux, expandVisible, hw]
      · by_cases ht : c = '\t'
        · simp [drawLineAux, expandVisible, hw, ht, ih]
        · simp [drawLineAux, expandVisible, hw, ht, hn, ih]

end Stte
